import Mathlib

/-!
# hass-sidecar: event-dispatch and module-lifecycle runtime, shallow embedding

This file embeds the State & Listener Broker (`src/lib/API.ts`), the
Automation module base class (`src/interfaces/Automation.ts`) and their
scheduling primitives into Lean, and proves or refutes the frozen claims
about them.

Modelling conventions:
* JS `Map` objects become insertion-ordered association lists
  (`List (String × α)`) with `mapSet` / `mapGet` / `mapDelete` mirroring
  `Map.set` / `Map.get` / `Map.delete`.
* JS objects (for `callService` options) become association lists of
  `JVal` values; object spread becomes repeated `mapSet`, matching
  last-wins spread semantics.
* Callbacks are identified by opaque numeric tokens; whether a callback
  throws is an external oracle `throws : Nat → Bool`, and dispatch
  produces an explicit trace of `DispatchEvent`s (cache writes,
  invocations, caught exceptions) in execution order.
* `Date.now()` and `Math.floor(Math.random() * k)` become explicit `Nat`
  parameters; `new Date(string)` becomes an arbitrary parse function
  `String → Int` parameter.
* Fallible operations return `Except`; an uncaught JS exception is an
  `Except.error`.
-/

namespace HassSidecar

/-- A JS value, as far as the claims need it (service-call option values,
state attributes). -/
inductive JVal where
  | str (s : String)
  | num (n : Int)
  | jbool (b : Bool)
  | null
deriving DecidableEq, Repr

/-- A JS `Date`-typed field: either still the raw wire string or a parsed
epoch-milliseconds value (result of `new Date(...)`). -/
inductive DateVal where
  | raw (s : String)
  | date (ms : Int)
deriving DecidableEq, Repr

/-- `IState` from `src/interfaces/IState.ts`: one entity's state payload. -/
structure IState where
  entity_id : String
  state : String
  attributes : List (String × JVal)
  last_changed : DateVal
  last_updated : DateVal
deriving DecidableEq, Repr

/-! ## JS `Map` on string keys, as an insertion-ordered association list -/

/-- `Map.get(k)` — first entry with the key (keys are unique in a JS map). -/
def mapGet {α : Type} (m : List (String × α)) (k : String) : Option α :=
  (m.find? (fun p => p.1 = k)).map (fun p => p.2)

/-- `Map.set(k, v)` — replace in place when the key exists, else append. -/
def mapSet {α : Type} (m : List (String × α)) (k : String) (v : α) :
    List (String × α) :=
  if m.any (fun p => p.1 = k) then
    m.map (fun p => if p.1 = k then (k, v) else p)
  else
    m ++ [(k, v)]

/-- `Map.delete(k)`. -/
def mapDelete {α : Type} (m : List (String × α)) (k : String) :
    List (String × α) :=
  m.filter (fun p => p.1 ≠ k)

/-- `Map.has(k)`. -/
def mapHas {α : Type} (m : List (String × α)) (k : String) : Bool :=
  m.any (fun p => p.1 = k)

/-! ## Broker data model (`API` class, `src/lib/API.ts`) -/

/-- One entry of a listener registry: `{ id, callback }`.  The callback
itself is identified by an opaque token `cb`; its behaviour lives in the
dispatch oracle. -/
structure ListenerEntry where
  id : Nat
  cb : Nat
deriving DecidableEq, Repr

/-- The listener-registry type: entity id → listeners in registration
order (mirrors `Map<string, {id, callback}[]>`). -/
abbrev Registry := List (String × List ListenerEntry)

/-- The `listenerInfo` object returned by `onState` / `onAutomation`. -/
structure SubInfo where
  id : Nat
  entityId : String
deriving DecidableEq, Repr

/-- The broker's mutable state: `_states`, `_stateListeners`,
`_automationListeners` of the `API` singleton. -/
structure Broker where
  states : List (String × IState)
  stateListeners : Registry
  automationListeners : Registry
deriving DecidableEq, Repr

/-- Subscription-id generation,
`Math.floor(Math.random() * 10000) + new Date().getTime()`:
`rand` models the floored random draw and `time` the clock reading. -/
def genId (time rand : Nat) : Nat :=
  rand + time

/-- Shared body of `onState` / `onAutomation`: create the entry list for a
fresh entity key, or push onto the existing list and store it back. -/
def addListener (reg : Registry) (entityId : String) (entry : ListenerEntry) :
    Registry :=
  match mapGet reg entityId with
  | none => mapSet reg entityId [entry]
  | some listeners => mapSet reg entityId (listeners ++ [entry])

/-- `API.onState(entityId, callback)` at a given clock/random draw. -/
def onStateB (b : Broker) (entityId : String) (cb : Nat) (time rand : Nat) :
    Broker × SubInfo :=
  let id := genId time rand
  ({ b with stateListeners := addListener b.stateListeners entityId ⟨id, cb⟩ },
   ⟨id, entityId⟩)

/-- `API.onAutomation(entityId, callback)` at a given clock/random draw. -/
def onAutomationB (b : Broker) (entityId : String) (cb : Nat) (time rand : Nat) :
    Broker × SubInfo :=
  let id := genId time rand
  ({ b with automationListeners := addListener b.automationListeners entityId ⟨id, cb⟩ },
   ⟨id, entityId⟩)

/-- Shared body of `clearOnState` / `clearOnAutomation`: filter the id out
of the entity's list; prune the key when the list becomes empty. -/
def clearReg (reg : Registry) (entityId : String) (id : Nat) : Registry :=
  match mapGet reg entityId with
  | none => reg
  | some listeners =>
    let listeners' := listeners.filter (fun l => l.id ≠ id)
    if listeners'.length = 0 then mapDelete reg entityId
    else mapSet reg entityId listeners'

/-- `API.clearOnState(entityId, id)`. -/
def clearOnState (b : Broker) (entityId : String) (id : Nat) : Broker :=
  { b with stateListeners := clearReg b.stateListeners entityId id }

/-- `API.clearOnAutomation(entityId, id)`. -/
def clearOnAutomation (b : Broker) (entityId : String) (id : Nat) : Broker :=
  { b with automationListeners := clearReg b.automationListeners entityId id }

/-- `API.getState(entityId)`: cached state or a thrown
`` `${entityId} state not available` `` error (never fetches). -/
def getStateB (b : Broker) (entityId : String) : Except String IState :=
  match mapGet b.states entityId with
  | none => .error (entityId ++ " state not available")
  | some s => .ok s

/-! ## Event dispatch (`_onStateChange` / `_onAutomationTrigger` handlers) -/

/-- The payload of a `state_changed` event (`message.data`). -/
structure StateMessage where
  new_state : Option IState
  old_state : Option IState
deriving DecidableEq, Repr

/-- The payload of an `automation_triggered` event (`message.data`). -/
structure AutoMessage where
  entity_id : String
  name : String
deriving DecidableEq, Repr

/-- Observable steps of one handler execution, in execution order. -/
inductive DispatchEvent where
  /-- `this._states.set(entity_id, newState)` -/
  | cacheSet (entityId : String) (s : IState)
  /-- a state listener's callback ran to completion with these arguments -/
  | invoked (cb : Nat) (newState : IState) (oldState : Option IState)
  /-- a state listener's callback threw; the exception was caught and logged -/
  | caught (cb : Nat)
  /-- an automation listener's callback ran to completion -/
  | invokedAuto (cb : Nat)
  /-- an automation listener's callback threw; caught and logged -/
  | caughtAuto (cb : Nat)
deriving DecidableEq, Repr

/-- One callback invocation inside the dispatch loop's `try`: the oracle
decides whether this callback throws. -/
def runCallback (throws : Nat → Bool) (cb : Nat) : Except Unit Unit :=
  if throws cb then .error () else .ok ()

/-- The per-listener loop of `_onStateChange`: each invocation is wrapped
in `try { ... } catch (e) { Logger.error(e) }`, so the loop always
continues and never lets an exception escape. -/
def dispatchStateLoop (throws : Nat → Bool) (newState : IState)
    (oldState : Option IState) : List ListenerEntry → List DispatchEvent
  | [] => []
  | l :: rest =>
    match runCallback throws l.cb with
    | .ok _ => .invoked l.cb newState oldState :: dispatchStateLoop throws newState oldState rest
    | .error _ => .caught l.cb :: dispatchStateLoop throws newState oldState rest

/-- The per-listener loop of `_onAutomationTrigger`, same catch shape. -/
def dispatchAutoLoop (throws : Nat → Bool) : List ListenerEntry → List DispatchEvent
  | [] => []
  | l :: rest =>
    match runCallback throws l.cb with
    | .ok _ => .invokedAuto l.cb :: dispatchAutoLoop throws rest
    | .error _ => .caughtAuto l.cb :: dispatchAutoLoop throws rest

/-- The `state_changed` handler body (`API._onStateChange`): null
`new_state` is ignored; otherwise the cache entry is replaced and every
listener currently registered for the entity is called in order.  The
function is total: no exception propagates to the connection layer. -/
def onStateChangeHandler (throws : Nat → Bool) (msg : StateMessage)
    (b : Broker) : Broker × List DispatchEvent :=
  match msg.new_state with
  | none => (b, [])
  | some newState =>
    let b' := { b with states := mapSet b.states newState.entity_id newState }
    match mapGet b.stateListeners newState.entity_id with
    | none => (b', [.cacheSet newState.entity_id newState])
    | some listeners =>
      (b', .cacheSet newState.entity_id newState ::
        dispatchStateLoop throws newState msg.old_state listeners)

/-- The `automation_triggered` handler body (`API._onAutomationTrigger`). -/
def onAutomationTriggerHandler (throws : Nat → Bool) (msg : AutoMessage)
    (b : Broker) : Broker × List DispatchEvent :=
  match mapGet b.automationListeners msg.entity_id with
  | none => (b, [])
  | some listeners => (b, dispatchAutoLoop throws listeners)

/-! ## State sync (`API._syncStates`) -/

/-- `new Date(x)`: parses a raw string with the host's date parser
(modelled as an arbitrary `parse` function); cloning an already-parsed
date keeps its value. -/
def newDate (parse : String → Int) : DateVal → DateVal
  | .raw s => .date (parse s)
  | .date n => .date n

/-- The `states.map(...)` body of `_syncStates`: convert the two date
fields in place. -/
def convertState (parse : String → Int) (s : IState) : IState :=
  { s with
    last_changed := newDate parse s.last_changed
    last_updated := newDate parse s.last_updated }

/-- `API._syncStates()`: a failed `getStates` rejects with that error
(`.catch(reject)`); an undefined result resolves without touching the
cache; otherwise each fetched state is `set` into the existing cache in
fetch order. -/
def syncStates (parse : String → Int)
    (fetch : Except String (Option (List IState)))
    (cache : List (String × IState)) :
    Except String (List (String × IState)) :=
  match fetch with
  | .error e => .error e
  | .ok none => .ok cache
  | .ok (some states) =>
    .ok ((states.map (convertState parse)).foldl
      (fun c s => mapSet c s.entity_id s) cache)

/-! ## Service calls (`API.callService`) -/

/-- A JS object for the options payload. -/
abbrev JObj := List (String × JVal)

/-- Object spread `{...a, ...b}`: each key of `b` is written onto `a` in
order, later keys overriding earlier ones. -/
def spreadMerge (a b : JObj) : JObj :=
  b.foldl (fun acc p => mapSet acc p.1 p.2) a

/-- JS string falsiness for the `if (!entityId)` check: `null` and the
empty string are the falsy cases of `string | null`. -/
def entityIdFalsy : Option String → Bool
  | none => true
  | some s => s = ""

/-- The value initially stored under the `entity_id` key:
the id string, or JS `null` when no entity is given. -/
def entityIdVal : Option String → JVal
  | some s => .str s
  | none => .null

/-- The options object built by `API.callService` and handed to
`connection.callService`: start from `{ entity_id: entityId }`, spread
`data` over it when `data` is truthy (the source's `data !== {}` compares
references and is always true), then `delete options.entity_id` when
`entityId` is falsy.  `data = none` models passing `null`/`undefined`. -/
def callServiceOptions (entityId : Option String) (data : Option JObj) : JObj :=
  let options : JObj := [("entity_id", entityIdVal entityId)]
  let options := match data with
    | some d => spreadMerge options d
    | none => options
  if entityIdFalsy entityId then mapDelete options "entity_id" else options

/-- The full outbound message `connection.callService(domain, service,
options)` produced by `API.callService`. -/
structure ServiceCall where
  domain : String
  service : String
  options : JObj
deriving DecidableEq, Repr

/-- `API.callService(domain, service, entityId, data)`: the forwarded call. -/
def callServiceMsg (domain service : String) (entityId : Option String)
    (data : Option JObj) : ServiceCall :=
  ⟨domain, service, callServiceOptions entityId data⟩

/-! ## Automation module base class (`src/interfaces/Automation.ts`) -/

/-- One entry of the delayed-task queue (`IQueue`): generated id, target
time (epoch ms) and a callback token. -/
structure QueueItem where
  id : String
  date : Nat
  cb : Nat
deriving DecidableEq, Repr

/-- One per-minute registration (`IEachMinute`). -/
structure EachMinuteItem where
  id : String
  cb : Nat
deriving DecidableEq, Repr

/-- An automation module instance's own mutable fields. -/
structure AutoMod where
  timeouts : List Nat
  intervals : List Nat
  eachMinutes : List EachMinuteItem
  lastMinute : Nat
  mqttSubscriptions : List (String × Nat)
  stateSubscriptions : List SubInfo
  automationSubscriptions : List SubInfo
  queue : List QueueItem
deriving DecidableEq, Repr

/-- The world one module instance acts on: its own fields, the broker
singleton, and the host's live native timers (a handle is in
`liveTimeouts` / `liveIntervals` while its native timer is still armed). -/
structure World where
  mod : AutoMod
  broker : Broker
  liveTimeouts : List Nat
  liveIntervals : List Nat
deriving DecidableEq, Repr

/-- `Array.prototype.indexOf`: first index of the value, `-1` when the
argument is absent (or is `undefined`, which never equals a handle). -/
def jsIndexOf (l : List Nat) (x : Option Nat) : Int :=
  match x with
  | none => -1
  | some v =>
    match l.findIdx? (fun a => a = v) with
    | none => -1
    | some i => (i : Int)

/-- `Array.prototype.splice(idx, 1)`: a negative start counts from the
end, clamped at 0; one element at the resulting position is removed (none
when the position is past the end). -/
def spliceRemoveOne {α : Type} (l : List α) (idx : Int) : List α :=
  let start : Nat := if idx < 0 then ((l.length : Int) + idx).toNat else idx.toNat
  l.take start ++ l.drop (start + 1)

/-- `Automation.clearTimeout(id)`: native `clearTimeout` (disarm the
handle if still live), then `splice(indexOf(id), 1)` on the tracking
list — with `indexOf = -1` this removes the **last** tracked handle. -/
def clearTimeoutW (w : World) (id : Option Nat) : World :=
  let live := match id with
    | some v => w.liveTimeouts.erase v
    | none => w.liveTimeouts
  let idx := jsIndexOf w.mod.timeouts id
  { w with
    liveTimeouts := live
    mod := { w.mod with timeouts := spliceRemoveOne w.mod.timeouts idx } }

/-- `Automation.clearInterval(id)`: same shape as `clearTimeout`. -/
def clearIntervalW (w : World) (id : Option Nat) : World :=
  let live := match id with
    | some v => w.liveIntervals.erase v
    | none => w.liveIntervals
  let idx := jsIndexOf w.mod.intervals id
  { w with
    liveIntervals := live
    mod := { w.mod with intervals := spliceRemoveOne w.mod.intervals idx } }

/-- `Automation.clearRunAt(id)`: drop every queue entry with this id. -/
def clearRunAtM (m : AutoMod) (id : String) : AutoMod :=
  { m with queue := m.queue.filter (fun q => q.id ≠ id) }

/-! ## The two polling loops -/

/-- The invocation pass of `Automation._checkQueue`: walk the queue and
fire (inside `try/catch`) every task whose target time has passed;
returns the fired tasks in queue order. -/
def checkQueueFired (now : Nat) : List QueueItem → List QueueItem
  | [] => []
  | t :: rest =>
    if t.date ≤ now then t :: checkQueueFired now rest
    else checkQueueFired now rest

/-- One step of `Automation._checkQueue` at clock `now`: the fired tasks
and the new queue `this._queue.filter(q => now < q.date)`. -/
def checkQueue (now : Nat) (q : List QueueItem) :
    List QueueItem × List QueueItem :=
  (checkQueueFired now q, q.filter (fun t => now < t.date))

/-- One step of `Automation._checkEachMinute` at the current
minute-of-hour reading: returns the updated module and the ids of the
per-minute callbacks fired on a minute-boundary crossing. -/
def checkEachMinute (currentMinute : Nat) (m : AutoMod) :
    AutoMod × List String :=
  if currentMinute = m.lastMinute then (m, [])
  else ({ m with lastMinute := currentMinute }, m.eachMinutes.map (fun i => i.id))

/-! ## `Automation.destroy()` -/

/-- Which external release calls throw, for the isolation analysis:
`mqttFail topic id` for `this._mqtt.unsubscribe(topic, id)` and
`stateFail`/`autoFail entityId id` for the broker clears. -/
structure DestroyOracle where
  mqttFail : String → Nat → Bool
  stateFail : String → Nat → Bool
  autoFail : String → Nat → Bool

/-- The oracle under which no external release call throws. -/
def noFailOracle : DestroyOracle :=
  ⟨fun _ _ => false, fun _ _ => false, fun _ _ => false⟩

/-- The timeout pass of `destroy`:
`for (let i = this._timeouts.length - 1; i >= 0; i--)
   this.clearTimeout(this._timeouts[i])`,
reading the tracking array afresh at each index (an out-of-range read
yields `undefined`, which native `clearTimeout` ignores).  `destroyTimeouts
(n+1)` performs the iteration at index `n` and recurses downwards. -/
def destroyTimeouts : Nat → World → World
  | 0, w => w
  | n + 1, w => destroyTimeouts n (clearTimeoutW w (w.mod.timeouts.get? n))

/-- The interval pass of `destroy`, same loop shape. -/
def destroyIntervals : Nat → World → World
  | 0, w => w
  | n + 1, w => destroyIntervals n (clearIntervalW w (w.mod.intervals.get? n))

/-- The queue pass of `destroy`:
`for (let i = this._queue.length - 1; i >= 0; i--)
   this.clearRunAt(this._queue[i].id)` — reading `.id` of an
out-of-range (`undefined`) element throws an uncaught `TypeError`,
aborting `destroy`. -/
def destroyQueue : Nat → AutoMod → Except Unit AutoMod
  | 0, m => .ok m
  | n + 1, m =>
    match m.queue.get? n with
    | none => .error ()
    | some q => destroyQueue n (clearRunAtM m q.id)

/-- The mqtt pass of `destroy`: `forEach` over the subscription map
calling `this._mqtt.unsubscribe` with **no** `try/catch` — a throw
escapes `destroy` before `this._mqttSubscriptions = new Map()` runs. -/
def destroyMqtt (fail : String → Nat → Bool) : List (String × Nat) → Except Unit Unit
  | [] => .ok ()
  | (topic, id) :: rest =>
    if fail topic id then .error () else destroyMqtt fail rest

/-- The state-subscription pass of `destroy`: each
`this._api.clearOnState(sub.entityId, sub.id)` is wrapped in its own
`try/catch`, so a throw skips only that one release. -/
def destroyStateSubs (fail : String → Nat → Bool) :
    List SubInfo → Broker → Broker
  | [], b => b
  | sub :: rest, b =>
    destroyStateSubs fail rest
      (if fail sub.entityId sub.id then b else clearOnState b sub.entityId sub.id)

/-- The automation-subscription pass of `destroy`, same isolation shape. -/
def destroyAutoSubs (fail : String → Nat → Bool) :
    List SubInfo → Broker → Broker
  | [], b => b
  | sub :: rest, b =>
    destroyAutoSubs fail rest
      (if fail sub.entityId sub.id then b else clearOnAutomation b sub.entityId sub.id)

/-- `Automation.destroy()`, step for step: clear timeouts, clear
intervals, clear the delayed-task queue, unsubscribe mqtt (uncaught on
failure) and reset the mqtt map, release state and automation
subscriptions (each isolated), and finally reset `_eachMinutes`.  The
`_stateSubscriptions` / `_automationSubscriptions` arrays themselves are
never reset by the source. -/
def destroyW (o : DestroyOracle) (w : World) : Except Unit World :=
  let w1 := destroyTimeouts w.mod.timeouts.length w
  let w2 := destroyIntervals w1.mod.intervals.length w1
  match destroyQueue w2.mod.queue.length w2.mod with
  | .error e => .error e
  | .ok m3 =>
    match destroyMqtt o.mqttFail m3.mqttSubscriptions with
    | .error e => .error e
    | .ok _ =>
      let m4 := { m3 with mqttSubscriptions := [] }
      let b1 := destroyStateSubs o.stateFail m4.stateSubscriptions w2.broker
      let b2 := destroyAutoSubs o.autoFail m4.automationSubscriptions b1
      .ok { w2 with
        mod := { m4 with eachMinutes := [] }
        broker := b2 }

/-- The listener ids currently registered for an entity in a registry. -/
def regIds (reg : Registry) (entityId : String) : List Nat :=
  ((mapGet reg entityId).getD []).map (fun l => l.id)

/-! ## Sample data for concrete witnesses and counterexamples -/

/-- A sample entity state. -/
def sampleState : IState :=
  ⟨"input_boolean.litter_box", "on", [("friendly_name", .str "Litter box")], .date 100, .date 100⟩

/-- A sample state for a light entity. -/
def lightState : IState :=
  ⟨"light.kitchen", "off", [], .date 200, .date 200⟩

/-- A broker with one cached state and one listener per registry. -/
def sampleBroker : Broker :=
  ⟨[("input_boolean.litter_box", sampleState)],
   [("light.kitchen", [⟨7, 1⟩])],
   [("automation.reset", [⟨8, 2⟩])]⟩

/-- A broker with two state listeners on one entity and one automation
listener, for dispatch witnesses. -/
def dispatchBroker : Broker :=
  ⟨[], [("light.kitchen", [⟨1, 11⟩, ⟨2, 12⟩])], [("automation.reset", [⟨3, 13⟩])]⟩

/-- A fully-populated module world for the C4 witness: one timer, one
interval, one per-minute callback, one mqtt subscription, one state
subscription, one automation subscription and one pending delayed
task. -/
def c4WitnessWorld : World :=
  ⟨⟨[10], [11], [⟨"m1", 5⟩], 3, [("zigbee2mqtt/topic", 4)],
    [⟨7, "light.kitchen"⟩], [⟨8, "automation.reset"⟩], [⟨"q1", 5, 0⟩]⟩,
   ⟨[], [("light.kitchen", [⟨7, 1⟩])], [("automation.reset", [⟨8, 2⟩])]⟩,
   [10], [11]⟩

/-! # Theorems -/

/-! ## JS map lemmas -/

theorem mapGet_mapSet_self {α : Type} (m : List (String × α)) (k : String) (v : α) :
    mapGet (mapSet m k v) k = some v := by
  induction m with
  | nil => simp [mapGet, mapSet]
  | cons p rest ih =>
    by_cases h : p.1 = k
    · simp [mapGet, mapSet, h]
    · by_cases h2 : rest.any (fun q => q.1 = k)
      · simp only [mapGet, mapSet, h2, List.any_cons, decide_eq_true_eq, h,
          decide_False, Bool.false_or, if_true] at ih ⊢
        simp only [List.map_cons, List.find?_cons, if_neg h, decide_eq_true_eq, h] at ih ⊢
        simpa [h] using ih
      · simp only [mapGet, mapSet, h2, List.any_cons, decide_eq_true_eq, h,
          decide_False, Bool.false_or, if_false] at ih ⊢
        simpa [List.find?_cons, h] using ih

theorem mapGet_cons {α : Type} (p : String × α) (rest : List (String × α)) (k : String) :
    mapGet (p :: rest) k = if p.1 = k then some p.2 else mapGet rest k := by
  by_cases hp : p.1 = k <;> simp [mapGet, List.find?_cons, hp]

theorem mapGet_map_replace_ne {α : Type} (m : List (String × α)) (k k' : String) (v : α)
    (h : k' ≠ k) :
    mapGet (m.map (fun p => if p.1 = k then (k, v) else p)) k' = mapGet m k' := by
  induction m with
  | nil => rfl
  | cons p rest ih =>
    by_cases hp : p.1 = k
    · rw [List.map_cons, if_pos hp, mapGet_cons, mapGet_cons,
        if_neg (show ¬(k, v).1 = k' from fun hk => h hk.symm),
        if_neg (show ¬p.1 = k' from fun hk => h ((hk ▸ hp : k' = k))), ih]
    · rw [List.map_cons, if_neg hp, mapGet_cons, mapGet_cons, ih]

theorem mapGet_append_single_ne {α : Type} (m : List (String × α)) (k k' : String) (v : α)
    (h : k' ≠ k) : mapGet (m ++ [(k, v)]) k' = mapGet m k' := by
  induction m with
  | nil => simp [mapGet, Ne.symm h]
  | cons p rest ih =>
    rw [List.cons_append, mapGet_cons, mapGet_cons, ih]

theorem mapGet_mapSet_ne {α : Type} (m : List (String × α)) (k k' : String) (v : α)
    (h : k' ≠ k) : mapGet (mapSet m k v) k' = mapGet m k' := by
  unfold mapSet
  split
  · exact mapGet_map_replace_ne m k k' v h
  · exact mapGet_append_single_ne m k k' v h

theorem mapGet_mapDelete_self {α : Type} (m : List (String × α)) (k : String) :
    mapGet (mapDelete m k) k = none := by
  induction m with
  | nil => rfl
  | cons p rest ih =>
    rw [mapDelete, List.filter_cons]
    by_cases hp : p.1 = k
    · simpa [hp, mapDelete] using ih
    · rw [if_pos (by simp [hp]), mapGet_cons, if_neg hp]
      simpa [mapDelete] using ih

theorem mapGet_mapDelete_ne {α : Type} (m : List (String × α)) (k k' : String)
    (h : k' ≠ k) : mapGet (mapDelete m k) k' = mapGet m k' := by
  induction m with
  | nil => rfl
  | cons p rest ih =>
    rw [mapGet_cons, mapDelete, List.filter_cons]
    by_cases hp : p.1 = k
    · rw [if_neg (show ¬p.1 = k' from fun hk => h ((hk ▸ hp : k' = k))),
        if_neg (by simp [hp])]
      simpa [mapDelete] using ih
    · rw [if_pos (by simp [hp]), mapGet_cons]
      by_cases hpk' : p.1 = k'
      · rw [if_pos hpk', if_pos hpk']
      · rw [if_neg hpk', if_neg hpk']
        simpa [mapDelete] using ih

/-! ## C8: null new_state leaves cache untouched and invokes nothing -/

/-- C8: processing a `state_changed` event whose `new_state` payload is
null leaves the state cache (indeed the whole broker) unchanged for every
entity and produces no dispatch step at all — no listener is invoked. -/
theorem c8_null_new_state (throws : Nat → Bool) (old : Option IState) (b : Broker) :
    onStateChangeHandler throws ⟨none, old⟩ b = (b, []) :=
  rfl

/-! ## C9: getState is cache-only and fails NotFound on unseen entities -/

/-- C9: `getState` on an entity absent from the cache fails with the
not-found error (it neither defaults nor fetches — the result is an
`Except.error` built only from the entity id); on a cached entity it
returns the cached state unchanged. -/
theorem c9_get_state (b : Broker) (entityId : String) :
    (mapGet b.states entityId = none →
      getStateB b entityId = .error (entityId ++ " state not available")) ∧
    (∀ s, mapGet b.states entityId = some s → getStateB b entityId = .ok s) := by
  constructor
  · intro h
    rw [getStateB, h]
  · intro s h
    rw [getStateB, h]

/-- Witness for C9 at concrete inputs: an unseen entity errors, a cached
entity returns its cached state. -/
theorem c9_get_state_witness :
    getStateB sampleBroker "light.unseen" = .error "light.unseen state not available" ∧
    getStateB sampleBroker "input_boolean.litter_box" = .ok sampleState :=
  ⟨(c9_get_state sampleBroker "light.unseen").1 rfl,
   (c9_get_state sampleBroker "input_boolean.litter_box").2 sampleState rfl⟩

/-! ## C6: one delayed-task poll fires exactly the due tasks -/

/-- C6: a single `_checkQueue` step at clock `now` fires exactly the
queued tasks whose target time is at or before `now` (in queue order,
however late the poll runs) and the new queue is exactly the non-due
remainder; the fired and remaining entries partition the queue
(`count` equation), so a task fired by one poll is removed and can never
be fired by a later poll. -/
theorem c6_check_queue_exact (now : Nat) (q : List QueueItem) (t : QueueItem) :
    (checkQueue now q).1 = q.filter (fun x => x.date ≤ now) ∧
    (checkQueue now q).2 = q.filter (fun x => now < x.date) ∧
    (checkQueue now q).1.count t + (checkQueue now q).2.count t = q.count t := by
  refine ⟨?_, rfl, ?_⟩
  · show checkQueueFired now q = _
    induction q with
    | nil => rfl
    | cons a as ih =>
      by_cases h : a.date ≤ now <;>
        simp [checkQueueFired, List.filter_cons, h, ih]
  · show (checkQueueFired now q).count t +
      (q.filter (fun x => now < x.date)).count t = q.count t
    have hfired : checkQueueFired now q = q.filter (fun x => x.date ≤ now) := by
      induction q with
      | nil => rfl
      | cons a as ih =>
        by_cases h : a.date ≤ now <;>
          simp [checkQueueFired, List.filter_cons, h, ih]
    rw [hfired]
    by_cases ht : t.date ≤ now
    · rw [List.count_filter (by simpa using ht)]
      have : t ∉ q.filter (fun x => now < x.date) := by
        intro hmem
        exact absurd (List.of_mem_filter hmem) (by simpa using ht)
      rw [List.count_eq_zero.mpr this, Nat.add_zero]
    · have : t ∉ q.filter (fun x => x.date ≤ now) := by
        intro hmem
        exact absurd (List.of_mem_filter hmem) (by simpa using ht)
      rw [List.count_eq_zero.mpr this, List.count_filter (by simpa using Nat.lt_of_not_le ht),
        Nat.zero_add]

/-! ## C2: subscription ids are *not* globally unique -/

/-- C2 counterexample: two `onState` registrations, one at clock 1000
with random draw 5 and one at clock 1001 with random draw 4, produce the
**same** subscription id 1005; both listeners remain registered under
that duplicated id, refuting global uniqueness. -/
theorem c2_counterexample_id_collision :
    genId 1000 5 = genId 1001 4 ∧
    (let r1 := onStateB ⟨[], [], []⟩ "light.kitchen" 1 1000 5
     let r2 := onStateB r1.1 "light.kitchen" 2 1001 4
     r1.2.id = r2.2.id ∧
       mapGet r2.1.stateListeners "light.kitchen" = some [⟨1005, 1⟩, ⟨1005, 2⟩]) := by
  exact ⟨rfl, rfl, by decide⟩

/-- C2 amended: the id `Math.floor(Math.random()*10000) + Date.now()` is
the sum of the random draw and the clock reading, so two subscriptions
get distinct ids exactly when those sums differ; uniqueness holds only
under that extra assumption, not unconditionally. -/
theorem c2_amended_distinct_sums (t1 r1 t2 r2 : Nat)
    (h : t1 + r1 ≠ t2 + r2) : genId t1 r1 ≠ genId t2 r2 := by
  intro hid
  apply h
  have : r1 + t1 = r2 + t2 := hid
  omega

/-- Witness for the amended C2 at concrete inputs. -/
theorem c2_amended_witness : genId 1000 5 ≠ genId 1001 5 :=
  c2_amended_distinct_sums 1000 5 1001 5 (by decide)

/-! ## Fold-of-set lemmas (shared by `spreadMerge` and `syncStates`) -/

theorem mapGet_eq_none_iff {α : Type} (m : List (String × α)) (k : String) :
    mapGet m k = none ↔ ∀ p ∈ m, p.1 ≠ k := by
  simp [mapGet, List.find?_eq_none]

theorem mapGet_foldl_mapSet_not_mem {α : Type} (d : List (String × α))
    (acc : List (String × α)) (k : String) (h : ∀ p ∈ d, p.1 ≠ k) :
    mapGet (d.foldl (fun c p => mapSet c p.1 p.2) acc) k = mapGet acc k := by
  induction d generalizing acc with
  | nil => rfl
  | cons p rest ih =>
    rw [List.foldl_cons, ih _ (fun q hq => h q (List.mem_cons_of_mem p hq)),
      mapGet_mapSet_ne _ _ _ _ (fun hk => h p (List.mem_cons_self p rest) hk.symm)]

theorem mapGet_foldl_mapSet_mem {α : Type} (d : List (String × α))
    (acc : List (String × α)) (k : String) (v : α)
    (hnd : (d.map Prod.fst).Nodup) (hv : mapGet d k = some v) :
    mapGet (d.foldl (fun c p => mapSet c p.1 p.2) acc) k = some v := by
  induction d generalizing acc with
  | nil => exact absurd hv (by simp [mapGet])
  | cons p rest ih =>
    rw [List.map_cons, List.nodup_cons] at hnd
    rw [mapGet_cons] at hv
    by_cases hp : p.1 = k
    · rw [if_pos hp] at hv
      have hrest : ∀ q ∈ rest, q.1 ≠ k := by
        intro q hq hqk
        have hmem : q.1 ∈ rest.map Prod.fst := List.mem_map_of_mem Prod.fst hq
        rw [hqk, ← hp] at hmem
        exact hnd.1 hmem
      rw [List.foldl_cons, mapGet_foldl_mapSet_not_mem rest _ k hrest, hp,
        mapGet_mapSet_self, hv]
    · rw [if_neg hp] at hv
      rw [List.foldl_cons]
      exact ih _ hnd.2 hv

/-! ## C5: callService options — the entity key is dropped too eagerly -/

/-- C5 counterexample: with `entityId = null` and caller data
`{ entity_id: "light.kitchen" }`, the trailing `delete options.entity_id`
also deletes the key that came from the caller's data, so the forwarded
options are the **empty** object — the caller-supplied key is not
present, refuting "contains every key of the caller-supplied data". -/
theorem c5_counterexample_entity_key_dropped :
    mapGet [("entity_id", JVal.str "light.kitchen")] "entity_id" =
      some (JVal.str "light.kitchen") ∧
    (callServiceMsg "light" "turn_on" none
      (some [("entity_id", JVal.str "light.kitchen")])).options = [] :=
  ⟨rfl, rfl⟩

/-- C5 amended: every caller-supplied key **other than** `entity_id` is
forwarded with its value; the `entity_id` key is physically absent
whenever `entityId` is falsy (null or the empty string) — even when the
caller's data itself carried an `entity_id` key; and for a truthy
`entityId` not overridden by data, `entity_id` carries the given id. -/
theorem c5_amended_options (entityId : Option String) (d : JObj)
    (dataAny : Option JObj) (s : String) (k : String) (v : JVal)
    (hk : k ≠ "entity_id") (hnd : (d.map Prod.fst).Nodup)
    (hv : mapGet d k = some v)
    (hfalsy : entityIdFalsy entityId = true)
    (hs : s ≠ "") (hno : mapGet d "entity_id" = none) :
    mapGet (callServiceOptions entityId (some d)) k = some v ∧
    mapGet (callServiceOptions entityId dataAny) "entity_id" = none ∧
    mapGet (callServiceOptions (some s) (some d)) "entity_id" = some (.str s) := by
  refine ⟨?_, ?_, ?_⟩
  · have hmerge : mapGet (spreadMerge [("entity_id", entityIdVal entityId)] d) k = some v :=
      mapGet_foldl_mapSet_mem d _ k v hnd hv
    simp only [callServiceOptions]
    split <;>
      first
        | exact hmerge
        | rw [mapGet_mapDelete_ne _ _ _ hk]; exact hmerge
  · simp only [callServiceOptions, hfalsy, if_true]
    exact mapGet_mapDelete_self _ _
  · simp only [callServiceOptions]
    rw [if_neg (by simp [entityIdFalsy, hs])]
    rw [spreadMerge, mapGet_foldl_mapSet_not_mem d _ _
      ((mapGet_eq_none_iff d "entity_id").mp hno)]
    rfl

theorem mapGet_of_mem_nodup {α : Type} (m : List (String × α)) (k : String) (v : α)
    (hnd : (m.map Prod.fst).Nodup) (hmem : (k, v) ∈ m) : mapGet m k = some v := by
  induction m with
  | nil => cases hmem
  | cons p rest ih =>
    rw [List.map_cons, List.nodup_cons] at hnd
    rcases List.mem_cons.mp hmem with heq | hmem'
    · rw [← heq, mapGet_cons, if_pos rfl]
    · by_cases hp : p.1 = k
      · exfalso
        have : (k, v).1 ∈ rest.map Prod.fst := List.mem_map_of_mem Prod.fst hmem'
        rw [show ((k, v).1 : String) = k from rfl, ← hp] at this
        exact hnd.1 this
      · rw [mapGet_cons, if_neg hp]
        exact ih hnd.2 hmem'

/-! ## `destroy` lemmas -/

theorem destroyTimeouts_preserve (n : Nat) (w : World) :
    (destroyTimeouts n w).mod.intervals = w.mod.intervals ∧
    (destroyTimeouts n w).mod.eachMinutes = w.mod.eachMinutes ∧
    (destroyTimeouts n w).mod.lastMinute = w.mod.lastMinute ∧
    (destroyTimeouts n w).mod.mqttSubscriptions = w.mod.mqttSubscriptions ∧
    (destroyTimeouts n w).mod.stateSubscriptions = w.mod.stateSubscriptions ∧
    (destroyTimeouts n w).mod.automationSubscriptions = w.mod.automationSubscriptions ∧
    (destroyTimeouts n w).mod.queue = w.mod.queue ∧
    (destroyTimeouts n w).broker = w.broker ∧
    (destroyTimeouts n w).liveIntervals = w.liveIntervals := by
  induction n generalizing w with
  | zero => exact ⟨rfl, rfl, rfl, rfl, rfl, rfl, rfl, rfl, rfl⟩
  | succ n ih =>
    have h := ih (clearTimeoutW w (w.mod.timeouts.get? n))
    simpa [destroyTimeouts, clearTimeoutW] using h

theorem destroyIntervals_preserve (n : Nat) (w : World) :
    (destroyIntervals n w).mod.timeouts = w.mod.timeouts ∧
    (destroyIntervals n w).mod.eachMinutes = w.mod.eachMinutes ∧
    (destroyIntervals n w).mod.lastMinute = w.mod.lastMinute ∧
    (destroyIntervals n w).mod.mqttSubscriptions = w.mod.mqttSubscriptions ∧
    (destroyIntervals n w).mod.stateSubscriptions = w.mod.stateSubscriptions ∧
    (destroyIntervals n w).mod.automationSubscriptions = w.mod.automationSubscriptions ∧
    (destroyIntervals n w).mod.queue = w.mod.queue ∧
    (destroyIntervals n w).broker = w.broker ∧
    (destroyIntervals n w).liveTimeouts = w.liveTimeouts := by
  induction n generalizing w with
  | zero => exact ⟨rfl, rfl, rfl, rfl, rfl, rfl, rfl, rfl, rfl⟩
  | succ n ih =>
    have h := ih (clearIntervalW w (w.mod.intervals.get? n))
    simpa [destroyIntervals, clearIntervalW] using h

theorem spliceRemoveOne_length_found (l : List Nat) (t : Nat) (ht : t ∈ l) :
    (spliceRemoveOne l (jsIndexOf l (some t))).length = l.length - 1 := by
  have hfind : l.findIdx? (fun a => a = t) = some (l.findIdx (fun a => a = t)) :=
    List.findIdx?_eq_some_of_exists ⟨t, ht, by simp⟩
  have hlt : l.findIdx (fun a => a = t) < l.length :=
    (List.findIdx?_eq_some_iff_findIdx_eq.mp hfind).1
  rw [jsIndexOf, hfind]
  simp only [spliceRemoveOne]
  rw [if_neg (by omega)]
  simp only [List.length_append, List.length_take, List.length_drop, Int.toNat_ofNat]
  omega

theorem destroyTimeouts_empties :
    ∀ (n : Nat) (w : World), w.mod.timeouts.length = n →
      (destroyTimeouts n w).mod.timeouts = [] := by
  intro n
  induction n with
  | zero =>
    intro w h
    exact List.eq_nil_of_length_eq_zero h
  | succ n ih =>
    intro w h
    have hn : n < w.mod.timeouts.length := by omega
    have hget : w.mod.timeouts.get? n = some (w.mod.timeouts.get ⟨n, hn⟩) :=
      List.get?_eq_get hn
    have hmem : w.mod.timeouts.get ⟨n, hn⟩ ∈ w.mod.timeouts := List.get_mem _ _ hn
    rw [destroyTimeouts]
    apply ih
    rw [hget]
    show (spliceRemoveOne w.mod.timeouts
      (jsIndexOf w.mod.timeouts (some (w.mod.timeouts.get ⟨n, hn⟩)))).length = n
    rw [spliceRemoveOne_length_found _ _ hmem, h]
    omega

theorem destroyIntervals_empties :
    ∀ (n : Nat) (w : World), w.mod.intervals.length = n →
      (destroyIntervals n w).mod.intervals = [] := by
  intro n
  induction n with
  | zero =>
    intro w h
    exact List.eq_nil_of_length_eq_zero h
  | succ n ih =>
    intro w h
    have hn : n < w.mod.intervals.length := by omega
    have hget : w.mod.intervals.get? n = some (w.mod.intervals.get ⟨n, hn⟩) :=
      List.get?_eq_get hn
    have hmem : w.mod.intervals.get ⟨n, hn⟩ ∈ w.mod.intervals := List.get_mem _ _ hn
    rw [destroyIntervals]
    apply ih
    rw [hget]
    show (spliceRemoveOne w.mod.intervals
      (jsIndexOf w.mod.intervals (some (w.mod.intervals.get ⟨n, hn⟩)))).length = n
    rw [spliceRemoveOne_length_found _ _ hmem, h]
    omega

theorem destroyQueue_spec :
    ∀ (n : Nat) (m : AutoMod), m.queue.length = n →
      (m.queue.map (fun q => q.id)).Nodup →
      ∃ m', destroyQueue n m = .ok m' ∧ m'.queue = [] ∧
        m'.timeouts = m.timeouts ∧ m'.intervals = m.intervals ∧
        m'.eachMinutes = m.eachMinutes ∧ m'.lastMinute = m.lastMinute ∧
        m'.mqttSubscriptions = m.mqttSubscriptions ∧
        m'.stateSubscriptions = m.stateSubscriptions ∧
        m'.automationSubscriptions = m.automationSubscriptions := by
  intro n
  induction n with
  | zero =>
    intro m h _
    exact ⟨m, rfl, List.eq_nil_of_length_eq_zero h, rfl, rfl, rfl, rfl, rfl, rfl, rfl⟩
  | succ n ih =>
    intro m h hnd
    have hne : m.queue ≠ [] := by
      intro hq
      rw [hq] at h
      cases h
    have hn : n < m.queue.length := by omega
    have hgetq : m.queue.get? n = some (m.queue.get ⟨n, hn⟩) := List.get?_eq_get hn
    obtain ⟨q, hq⟩ : ∃ q, m.queue.get ⟨n, hn⟩ = q := ⟨_, rfl⟩
    rw [hq] at hgetq
    have hlast : m.queue.getLast hne = q := by
      rw [List.getLast_eq_getElem]
      have hidx : m.queue.length - 1 = n := by omega
      simp only [hidx]
      rw [List.get_eq_getElem] at hq
      exact hq
    have hdecomp : m.queue.dropLast ++ [q] = m.queue := by
      rw [← hlast]
      exact List.dropLast_append_getLast hne
    have hmap : m.queue.map (fun x => x.id) =
        m.queue.dropLast.map (fun x => x.id) ++ [q.id] := by
      conv_lhs => rw [← hdecomp]
      rw [List.map_append]
      rfl
    have hnd' : (m.queue.dropLast.map (fun x => x.id) ++ [q.id]).Nodup := by
      rw [← hmap]
      exact hnd
    have hdisj := (List.nodup_append.mp hnd').2.2
    have hnotlast : ∀ x ∈ m.queue.dropLast, x.id ≠ q.id := by
      intro x hx hxq
      exact hdisj (hxq ▸ List.mem_map_of_mem _ hx) (List.mem_singleton.mpr rfl)
    have hfilter : m.queue.filter (fun x => x.id ≠ q.id) = m.queue.dropLast := by
      conv_lhs => rw [← hdecomp]
      rw [List.filter_append, List.filter_eq_self.mpr
        (fun a ha => by simpa using hnotlast a ha)]
      simp
    rw [destroyQueue, hgetq]
    have hlen' : (clearRunAtM m q.id).queue.length = n := by
      show (m.queue.filter _).length = n
      rw [hfilter, List.length_dropLast, h]
      omega
    have hnd'' : ((clearRunAtM m q.id).queue.map (fun x => x.id)).Nodup := by
      show ((m.queue.filter _).map _).Nodup
      rw [hfilter]
      exact (List.nodup_append.mp hnd').1
    obtain ⟨m', hm', hq', hrest⟩ := ih (clearRunAtM m q.id) hlen' hnd''
    exact ⟨m', hm', hq', hrest⟩

theorem clearReg_not_mem (reg : Registry) (e : String) (id : Nat) :
    id ∉ regIds (clearReg reg e id) e := by
  rw [clearReg]
  cases hg : mapGet reg e with
  | none => simp [regIds, hg]
  | some ls =>
    by_cases hlen : (ls.filter (fun l => l.id ≠ id)).length = 0
    · simp only [hlen, if_true, regIds, mapGet_mapDelete_self]
      simp
    · simp only [hlen, if_false, regIds, mapGet_mapSet_self]
      intro hmem
      simp only [Option.getD_some] at hmem
      rcases List.mem_map.mp hmem with ⟨l, hl, hlid⟩
      have := List.of_mem_filter hl
      simp only [decide_eq_true_eq] at this
      exact this hlid

theorem clearReg_preserve_not_mem (reg : Registry) (e e' : String) (id id' : Nat)
    (h : id ∉ regIds reg e) : id ∉ regIds (clearReg reg e' id') e := by
  rw [clearReg]
  cases hg : mapGet reg e' with
  | none => exact h
  | some ls =>
    by_cases he : e = e'
    · subst he
      by_cases hlen : (ls.filter (fun l => l.id ≠ id')).length = 0
      · simp only [hlen, if_true, regIds, mapGet_mapDelete_self]
        simp
      · simp only [hlen, if_false, regIds, mapGet_mapSet_self]
        intro hmem
        simp only [Option.getD_some] at hmem
        rcases List.mem_map.mp hmem with ⟨l, hl, hlid⟩
        apply h
        rw [regIds, hg]
        simp only [Option.getD_some]
        exact hlid ▸ List.mem_map_of_mem (fun l => l.id) (List.mem_of_mem_filter hl)
    · by_cases hlen : (ls.filter (fun l => l.id ≠ id')).length = 0
      · simpa only [hlen, if_true, regIds, mapGet_mapDelete_ne _ _ _ he] using h
      · simpa only [hlen, if_false, regIds, mapGet_mapSet_ne _ _ _ _ he] using h

theorem destroyStateSubs_fields (fail : String → Nat → Bool) :
    ∀ (subs : List SubInfo) (b : Broker),
      (destroyStateSubs fail subs b).states = b.states ∧
      (destroyStateSubs fail subs b).automationListeners = b.automationListeners := by
  intro subs
  induction subs with
  | nil => exact fun b => ⟨rfl, rfl⟩
  | cons sub rest ih =>
    intro b
    rw [destroyStateSubs]
    by_cases hf : fail sub.entityId sub.id <;>
      simpa [hf, clearOnState] using ih _

theorem destroyAutoSubs_fields (fail : String → Nat → Bool) :
    ∀ (subs : List SubInfo) (b : Broker),
      (destroyAutoSubs fail subs b).states = b.states ∧
      (destroyAutoSubs fail subs b).stateListeners = b.stateListeners := by
  intro subs
  induction subs with
  | nil => exact fun b => ⟨rfl, rfl⟩
  | cons sub rest ih =>
    intro b
    rw [destroyAutoSubs]
    by_cases hf : fail sub.entityId sub.id <;>
      simpa [hf, clearOnAutomation] using ih _

theorem destroyStateSubs_preserve_not_mem (fail : String → Nat → Bool) :
    ∀ (subs : List SubInfo) (b : Broker) (e : String) (id : Nat),
      id ∉ regIds b.stateListeners e →
      id ∉ regIds (destroyStateSubs fail subs b).stateListeners e := by
  intro subs
  induction subs with
  | nil => exact fun b e id h => h
  | cons sub rest ih =>
    intro b e id h
    rw [destroyStateSubs]
    by_cases hf : fail sub.entityId sub.id
    · rw [if_pos hf]
      exact ih _ _ _ h
    · rw [if_neg hf]
      exact ih _ _ _ (clearReg_preserve_not_mem _ _ _ _ _ h)

theorem destroyAutoSubs_preserve_not_mem (fail : String → Nat → Bool) :
    ∀ (subs : List SubInfo) (b : Broker) (e : String) (id : Nat),
      id ∉ regIds b.automationListeners e →
      id ∉ regIds (destroyAutoSubs fail subs b).automationListeners e := by
  intro subs
  induction subs with
  | nil => exact fun b e id h => h
  | cons sub rest ih =>
    intro b e id h
    rw [destroyAutoSubs]
    by_cases hf : fail sub.entityId sub.id
    · rw [if_pos hf]
      exact ih _ _ _ h
    · rw [if_neg hf]
      exact ih _ _ _ (clearReg_preserve_not_mem _ _ _ _ _ h)

theorem destroyStateSubs_removes (fail : String → Nat → Bool) :
    ∀ (subs : List SubInfo) (b : Broker),
      ∀ s ∈ subs, fail s.entityId s.id = false →
        s.id ∉ regIds (destroyStateSubs fail subs b).stateListeners s.entityId := by
  intro subs
  induction subs with
  | nil =>
    intro b s hs
    cases hs
  | cons sub rest ih =>
    intro b s hs hf
    rcases List.mem_cons.mp hs with heq | hmem
    · subst heq
      rw [destroyStateSubs, if_neg (by simp [hf])]
      exact destroyStateSubs_preserve_not_mem fail rest _ _ _
        (clearReg_not_mem _ _ _)
    · rw [destroyStateSubs]
      by_cases hfs : fail sub.entityId sub.id <;>
        simp only [hfs, if_true, if_false] <;>
        exact ih _ s hmem hf

theorem destroyAutoSubs_removes (fail : String → Nat → Bool) :
    ∀ (subs : List SubInfo) (b : Broker),
      ∀ s ∈ subs, fail s.entityId s.id = false →
        s.id ∉ regIds (destroyAutoSubs fail subs b).automationListeners s.entityId := by
  intro subs
  induction subs with
  | nil =>
    intro b s hs
    cases hs
  | cons sub rest ih =>
    intro b s hs hf
    rcases List.mem_cons.mp hs with heq | hmem
    · subst heq
      rw [destroyAutoSubs, if_neg (by simp [hf])]
      exact destroyAutoSubs_preserve_not_mem fail rest _ _ _
        (clearReg_not_mem _ _ _)
    · rw [destroyAutoSubs]
      by_cases hfs : fail sub.entityId sub.id <;>
        simp only [hfs, if_true, if_false] <;>
        exact ih _ s hmem hf

theorem destroyMqtt_ok (fail : String → Nat → Bool) :
    ∀ (l : List (String × Nat)), (∀ p ∈ l, fail p.1 p.2 = false) →
      destroyMqtt fail l = .ok () := by
  intro l
  induction l with
  | nil => intro _; rfl
  | cons p rest ih =>
    intro h
    rw [destroyMqtt]
    rw [if_neg (by simp [h p (List.mem_cons_self p rest)])]
    exact ih (fun q hq => h q (List.mem_cons_of_mem p hq))

/-! ## C4: destroy -/

/-- C4 counterexample, three prongs on concrete modules.
(1) A fully successful `destroy` never empties the
`_stateSubscriptions` / `_automationSubscriptions` tracking arrays: the
module still "owns" its subscription records afterwards (only the broker
registries are cleaned), so "its tracking lists are empty" is false.
(2) An mqtt unsubscribe failure is **not** isolated: `destroy` aborts
with the exception before releasing the state subscription, whose
listener is still registered in the broker.
(3) Two pending delayed tasks sharing an id make the queue pass read
`undefined.id` and `destroy` throws. -/
theorem c4_counterexample_destroy :
    destroyW noFailOracle
      ⟨⟨[], [], [], 0, [], [⟨7, "light.kitchen"⟩], [⟨8, "automation.reset"⟩], []⟩,
        ⟨[], [("light.kitchen", [⟨7, 1⟩])], [("automation.reset", [⟨8, 2⟩])]⟩, [], []⟩ =
      .ok ⟨⟨[], [], [], 0, [], [⟨7, "light.kitchen"⟩], [⟨8, "automation.reset"⟩], []⟩,
        ⟨[], [], []⟩, [], []⟩ ∧
    destroyW ⟨fun _ _ => true, fun _ _ => false, fun _ _ => false⟩
      ⟨⟨[], [], [], 0, [("zigbee2mqtt/topic", 3)], [⟨7, "light.kitchen"⟩], [], []⟩,
        ⟨[], [("light.kitchen", [⟨7, 1⟩])], []⟩, [], []⟩ = .error () ∧
    destroyW noFailOracle
      ⟨⟨[], [], [], 0, [], [], [], [⟨"dup", 1, 0⟩, ⟨"dup", 2, 1⟩]⟩, ⟨[], [], []⟩, [], []⟩ =
      .error () :=
  ⟨rfl, rfl, rfl⟩

/-- C4 amended: provided the pending delayed tasks have pairwise-distinct
ids and no owned mqtt unsubscribe throws, `destroy()` returns normally
and afterwards: the timeout, interval, delayed-task, mqtt and per-minute
tracking lists are empty; the state/automation **subscription tracking
arrays are unchanged** (never reset by the source); every state and
automation listener whose broker release did not throw is removed from
the broker registries (release failures there are isolated per
subscription, for an arbitrary failure oracle); and no previously
pending delayed task or per-minute callback can fire afterwards (a
queue poll fires nothing and a minute crossing fires nothing). -/
theorem c4_amended_destroy (w : World) (o : DestroyOracle)
    (hq : (w.mod.queue.map (fun q => q.id)).Nodup)
    (hm : ∀ p ∈ w.mod.mqttSubscriptions, o.mqttFail p.1 p.2 = false) :
    ∃ w', destroyW o w = .ok w' ∧
      w'.mod.timeouts = [] ∧
      w'.mod.intervals = [] ∧
      w'.mod.queue = [] ∧
      w'.mod.mqttSubscriptions = [] ∧
      w'.mod.eachMinutes = [] ∧
      w'.mod.stateSubscriptions = w.mod.stateSubscriptions ∧
      w'.mod.automationSubscriptions = w.mod.automationSubscriptions ∧
      (∀ s ∈ w.mod.stateSubscriptions, o.stateFail s.entityId s.id = false →
        s.id ∉ regIds w'.broker.stateListeners s.entityId) ∧
      (∀ s ∈ w.mod.automationSubscriptions, o.autoFail s.entityId s.id = false →
        s.id ∉ regIds w'.broker.automationListeners s.entityId) ∧
      (∀ now, checkQueue now w'.mod.queue = ([], [])) ∧
      (∀ minute, (checkEachMinute minute w'.mod).2 = []) := by
  obtain ⟨p1i, p1e, p1l, p1m, p1s, p1a, p1q, p1b, p1li⟩ :=
    destroyTimeouts_preserve w.mod.timeouts.length w
  set w1 := destroyTimeouts w.mod.timeouts.length w with hw1
  have h1t : w1.mod.timeouts = [] := destroyTimeouts_empties _ w rfl
  obtain ⟨p2t, p2e, p2l, p2m, p2s, p2a, p2q, p2b, p2lt⟩ :=
    destroyIntervals_preserve w1.mod.intervals.length w1
  set w2 := destroyIntervals w1.mod.intervals.length w1 with hw2
  have h2i : w2.mod.intervals = [] := destroyIntervals_empties _ w1 rfl
  have h2t : w2.mod.timeouts = [] := by rw [p2t, h1t]
  have h2q : w2.mod.queue = w.mod.queue := by rw [p2q, p1q]
  have h2m : w2.mod.mqttSubscriptions = w.mod.mqttSubscriptions := by rw [p2m, p1m]
  have h2s : w2.mod.stateSubscriptions = w.mod.stateSubscriptions := by rw [p2s, p1s]
  have h2a : w2.mod.automationSubscriptions = w.mod.automationSubscriptions := by
    rw [p2a, p1a]
  have h2b : w2.broker = w.broker := by rw [p2b, p1b]
  obtain ⟨m3, hm3, h3q, h3t, h3i, h3e, h3l, h3m, h3s, h3a⟩ :=
    destroyQueue_spec w2.mod.queue.length w2.mod rfl (by rw [h2q]; exact hq)
  have hmq : destroyMqtt o.mqttFail m3.mqttSubscriptions = .ok () := by
    apply destroyMqtt_ok
    rw [h3m, h2m]
    exact hm
  have hdw : destroyW o w = .ok { w2 with
      mod := { m3 with mqttSubscriptions := [], eachMinutes := [] },
      broker := destroyAutoSubs o.autoFail m3.automationSubscriptions
        (destroyStateSubs o.stateFail m3.stateSubscriptions w2.broker) } := by
    simp only [destroyW]
    rw [← hw1, ← hw2]
    simp only [hm3, hmq]
  refine ⟨_, hdw, ?_, ?_, ?_, rfl, rfl, ?_, ?_, ?_, ?_, ?_, ?_⟩
  · show m3.timeouts = []
    rw [h3t, h2t]
  · show m3.intervals = []
    rw [h3i, h2i]
  · exact h3q
  · show m3.stateSubscriptions = _
    rw [h3s, h2s]
  · show m3.automationSubscriptions = _
    rw [h3a, h2a]
  · intro s hs hf
    have hsubs : s ∈ m3.stateSubscriptions := by
      rw [h3s, h2s]
      exact hs
    have hrm := destroyStateSubs_removes o.stateFail m3.stateSubscriptions
      w2.broker s hsubs hf
    have hfields := (destroyAutoSubs_fields o.autoFail m3.automationSubscriptions
      (destroyStateSubs o.stateFail m3.stateSubscriptions w2.broker)).2
    show s.id ∉ regIds (destroyAutoSubs _ _ _).stateListeners s.entityId
    rw [hfields]
    exact hrm
  · intro s hs hf
    have hsubs : s ∈ m3.automationSubscriptions := by
      rw [h3a, h2a]
      exact hs
    exact destroyAutoSubs_removes o.autoFail m3.automationSubscriptions _ s hsubs hf
  · intro now
    show checkQueue now m3.queue = ([], [])
    rw [h3q]
    rfl
  · intro minute
    rw [checkEachMinute]
    split <;> rfl

/-- Witness for the amended C4 at `c4WitnessWorld` with the no-failure
oracle. -/
theorem c4_amended_witness :
    ∃ w', destroyW noFailOracle c4WitnessWorld = .ok w' ∧
      w'.mod.timeouts = [] ∧
      w'.mod.intervals = [] ∧
      w'.mod.queue = [] ∧
      w'.mod.mqttSubscriptions = [] ∧
      w'.mod.eachMinutes = [] ∧
      w'.mod.stateSubscriptions = c4WitnessWorld.mod.stateSubscriptions ∧
      w'.mod.automationSubscriptions = c4WitnessWorld.mod.automationSubscriptions ∧
      (∀ s ∈ c4WitnessWorld.mod.stateSubscriptions,
        noFailOracle.stateFail s.entityId s.id = false →
        s.id ∉ regIds w'.broker.stateListeners s.entityId) ∧
      (∀ s ∈ c4WitnessWorld.mod.automationSubscriptions,
        noFailOracle.autoFail s.entityId s.id = false →
        s.id ∉ regIds w'.broker.automationListeners s.entityId) ∧
      (∀ now, checkQueue now w'.mod.queue = ([], [])) ∧
      (∀ minute, (checkEachMinute minute w'.mod).2 = []) :=
  c4_amended_destroy c4WitnessWorld noFailOracle (by decide) (fun p _ => rfl)

/-! ## C3: syncStates merges into, rather than replaces, the cache -/

/-- C3 counterexample: with a non-empty cache and a successful fetch
returning the **empty** state list, `syncStates` succeeds and the old
entity is still cached — entities absent from the fetched list survive,
so the cache is merged, not replaced. -/
theorem c3_counterexample_merge_not_replace :
    syncStates (fun _ => 0) (.ok (some []))
        [("input_boolean.litter_box", sampleState)] =
      .ok [("input_boolean.litter_box", sampleState)] ∧
    mapGet [("input_boolean.litter_box", sampleState)] "input_boolean.litter_box" =
      some sampleState :=
  ⟨rfl, rfl⟩

/-- C3 amended: a failed fetch propagates its error; a successful fetch
`set`s every fetched entity (date fields converted) over the **existing**
cache: each fetched entity (with distinct ids) is afterwards cached with
its converted fetched state, while every entity absent from the fetched
list keeps its previous cache entry — the cache is merged, not
replaced. -/
theorem c3_amended_sync_merge (parse : String → Int) (states : List IState)
    (cache : List (String × IState)) (e' : String) (err : String) :
    syncStates parse (.error err) cache = .error err ∧
    syncStates parse (.ok (some states)) cache =
      .ok ((states.map (convertState parse)).foldl
        (fun c s => mapSet c s.entity_id s) cache) ∧
    ((states.map (fun s => s.entity_id)).Nodup →
      ∀ s ∈ states,
        mapGet ((states.map (convertState parse)).foldl
          (fun c s => mapSet c s.entity_id s) cache) s.entity_id =
          some (convertState parse s)) ∧
    ((∀ s ∈ states, s.entity_id ≠ e') →
      mapGet ((states.map (convertState parse)).foldl
        (fun c s => mapSet c s.entity_id s) cache) e' = mapGet cache e') := by
  have hfold : ∀ (c : List (String × IState)),
      (states.map (convertState parse)).foldl (fun c s => mapSet c s.entity_id s) c =
        (((states.map (convertState parse)).map (fun s => (s.entity_id, s))).foldl
          (fun c p => mapSet c p.1 p.2) c) := by
    intro c
    simp only [List.foldl_map]
  refine ⟨rfl, rfl, ?_, ?_⟩
  · intro hnd s hs
    rw [hfold]
    have hkeys : (((states.map (convertState parse)).map
        (fun s => (s.entity_id, s))).map Prod.fst) =
        states.map (fun s => s.entity_id) := by
      rw [List.map_map, List.map_map]
      rfl
    refine mapGet_foldl_mapSet_mem _ _ _ _ (by rw [hkeys]; exact hnd) ?_
    refine mapGet_of_mem_nodup _ _ _ (by rw [hkeys]; exact hnd) ?_
    have : convertState parse s ∈ states.map (convertState parse) :=
      List.mem_map_of_mem _ hs
    have hpair := List.mem_map_of_mem (fun s => (s.entity_id, s)) this
    exact hpair
  · intro habs
    rw [hfold]
    refine mapGet_foldl_mapSet_not_mem _ _ _ ?_
    intro p hp
    rcases List.mem_map.mp hp with ⟨t, ht, hpt⟩
    rcases List.mem_map.mp ht with ⟨s, hs, hts⟩
    rw [← hpt]
    show t.entity_id ≠ e'
    rw [← hts]
    exact habs s hs

/-- Witness for the amended C3: fetching one light state over a cache
holding one other entity keeps both (`convertState` is the identity on
already-parsed dates, so the fetched payload is cached verbatim). -/
theorem c3_amended_witness :
    syncStates (fun _ => 0) (.error "boom")
        [("input_boolean.litter_box", sampleState)] = .error "boom" ∧
    mapGet (([lightState].map (convertState (fun _ => 0))).foldl
        (fun c s => mapSet c s.entity_id s)
        [("input_boolean.litter_box", sampleState)]) "light.kitchen" =
      some lightState ∧
    mapGet (([lightState].map (convertState (fun _ => 0))).foldl
        (fun c s => mapSet c s.entity_id s)
        [("input_boolean.litter_box", sampleState)]) "input_boolean.litter_box" =
      some sampleState := by
  have h := c3_amended_sync_merge (fun _ => 0) [lightState]
    [("input_boolean.litter_box", sampleState)] "input_boolean.litter_box" "boom"
  exact ⟨h.1,
    h.2.2.1 (by decide) lightState (List.mem_singleton.mpr rfl),
    h.2.2.2 (by decide)⟩

/-! ## C1 and C7: state/automation dispatch -/

theorem dispatchStateLoop_eq_map (throws : Nat → Bool) (ns : IState)
    (old : Option IState) (ls : List ListenerEntry) :
    dispatchStateLoop throws ns old ls =
      ls.map (fun l => if throws l.cb then .caught l.cb else .invoked l.cb ns old) := by
  induction ls with
  | nil => rfl
  | cons l rest ih =>
    by_cases h : throws l.cb <;>
      simp [dispatchStateLoop, runCallback, h, ih]

theorem dispatchAutoLoop_eq_map (throws : Nat → Bool) (ls : List ListenerEntry) :
    dispatchAutoLoop throws ls =
      ls.map (fun l => if throws l.cb then .caughtAuto l.cb else .invokedAuto l.cb) := by
  induction ls with
  | nil => rfl
  | cons l rest ih =>
    by_cases h : throws l.cb <;>
      simp [dispatchAutoLoop, runCallback, h, ih]

/-- C1: delivering a `state_changed` event with non-null `new_state` for
an entity with registered listeners first replaces the cache entry (the
`cacheSet` step heads the trace, and `getState` on the updated broker
already returns the new payload), then invokes every registered listener
exactly once, in registration order, with `(newState, oldState)`;
moreover registration (`onState`) appends to the entity's listener list,
so the list order *is* registration order. -/
theorem c1_state_change_dispatch (b : Broker) (ns : IState) (old : Option IState)
    (ls : List ListenerEntry) (h : mapGet b.stateListeners ns.entity_id = some ls)
    (e : String) (cb time rand : Nat) :
    onStateChangeHandler (fun _ => false) ⟨some ns, old⟩ b =
      ({ b with states := mapSet b.states ns.entity_id ns },
        .cacheSet ns.entity_id ns :: ls.map (fun l => .invoked l.cb ns old)) ∧
    getStateB { b with states := mapSet b.states ns.entity_id ns } ns.entity_id = .ok ns ∧
    mapGet (onStateB b e cb time rand).1.stateListeners e =
      some (((mapGet b.stateListeners e).getD []) ++ [⟨genId time rand, cb⟩]) := by
  refine ⟨?_, ?_, ?_⟩
  · simp only [onStateChangeHandler, h, dispatchStateLoop_eq_map]
    simp
  · rw [getStateB]
    simp only [mapGet_mapSet_self]
  · simp only [onStateB, addListener]
    cases hg : mapGet b.stateListeners e with
    | none => simp [hg, mapGet_mapSet_self]
    | some ls0 => simp [hg, mapGet_mapSet_self]

/-- Witness for C1 on a concrete broker with two listeners. -/
theorem c1_witness :
    onStateChangeHandler (fun _ => false) ⟨some lightState, none⟩ dispatchBroker =
      ({ dispatchBroker with
          states := mapSet dispatchBroker.states "light.kitchen" lightState },
        [.cacheSet "light.kitchen" lightState,
         .invoked 11 lightState none, .invoked 12 lightState none]) :=
  (c1_state_change_dispatch dispatchBroker lightState none [⟨1, 11⟩, ⟨2, 12⟩]
    rfl "e" 0 0 0).1

/-- C7: during dispatch of a `state_changed` or `automation_triggered`
event, a throwing callback is caught at the dispatch site and reported (a
`caught` trace step): every other listener registered for that entity is
still attempted exactly once in order, the cache update already performed
is unaffected, and the handler is a total function into a broker/trace
pair, so no exception reaches the connection layer for any `throws`
oracle. -/
theorem c7_dispatch_isolation (throws : Nat → Bool) (b bs : Broker)
    (ns : IState) (old : Option IState) (ls las : List ListenerEntry)
    (am : AutoMessage)
    (h1 : mapGet b.stateListeners ns.entity_id = some ls)
    (h2 : mapGet bs.automationListeners am.entity_id = some las) :
    onStateChangeHandler throws ⟨some ns, old⟩ b =
      ({ b with states := mapSet b.states ns.entity_id ns },
        .cacheSet ns.entity_id ns :: ls.map (fun l =>
          if throws l.cb then .caught l.cb else .invoked l.cb ns old)) ∧
    onAutomationTriggerHandler throws am bs =
      (bs, las.map (fun l =>
        if throws l.cb then .caughtAuto l.cb else .invokedAuto l.cb)) := by
  constructor
  · simp only [onStateChangeHandler, h1, dispatchStateLoop_eq_map]
  · simp only [onAutomationTriggerHandler, h2, dispatchAutoLoop_eq_map]

/-- Witness for C7: callbacks 11 and 13 throw; the sibling listener 12 is
still invoked, the cache is still updated, and both handlers return. -/
theorem c7_witness :
    onStateChangeHandler (fun cb => cb == 11 || cb == 13)
        ⟨some lightState, none⟩ dispatchBroker =
      ({ dispatchBroker with
          states := mapSet dispatchBroker.states "light.kitchen" lightState },
        [.cacheSet "light.kitchen" lightState,
         .caught 11, .invoked 12 lightState none]) ∧
    onAutomationTriggerHandler (fun cb => cb == 11 || cb == 13)
        ⟨"automation.reset", "Reset"⟩ dispatchBroker =
      (dispatchBroker, [.caughtAuto 13]) :=
  c7_dispatch_isolation (fun cb => cb == 11 || cb == 13) dispatchBroker dispatchBroker
    lightState none [⟨1, 11⟩, ⟨2, 12⟩] [⟨3, 13⟩] ⟨"automation.reset", "Reset"⟩ rfl rfl

/-! ## C10: clearing an untracked handle untracks the last live handle -/

theorem jsIndexOf_not_mem (l : List Nat) (x : Nat) (hx : x ∉ l) :
    jsIndexOf l (some x) = -1 := by
  rw [jsIndexOf]
  have hidx : l.findIdx? (fun a => a = x) = none := by
    rw [List.findIdx?_eq_none_iff]
    intro a ha
    simp only [decide_eq_false_iff_not]
    exact fun hax => hx (hax ▸ ha)
  rw [hidx]

theorem spliceRemoveOne_neg_one {α : Type} (l : List α) :
    spliceRemoveOne l (-1) = l.dropLast := by
  simp only [spliceRemoveOne]
  rw [if_pos (by norm_num : (-1 : Int) < 0)]
  have hstart : ((l.length : Int) + (-1)).toNat = l.length - 1 := by omega
  rw [hstart, ← List.dropLast_eq_take, List.drop_eq_nil_of_le (by omega),
    List.append_nil]

/-- C10: `clearTimeout` (and `clearInterval`) on a handle that is not in
the tracking list still splices at index `-1`, removing the most recently
tracked handle; consequently clearing the same handle twice untracks a
different, still-live handle: starting from live tracked handles
`[h, h']`, clearing `h` twice leaves `h'` untracked, and `destroy()` then
completes while the native timer `h'` is still armed. -/
theorem c10_clear_untracked_handle (w : World) (x h h' : Nat) (b : Broker)
    (hmemT : x ∉ w.mod.timeouts) (hmemI : x ∉ w.mod.intervals) (hne : h ≠ h') :
    (clearTimeoutW w (some x)).mod.timeouts = w.mod.timeouts.dropLast ∧
    (clearIntervalW w (some x)).mod.intervals = w.mod.intervals.dropLast ∧
    destroyW noFailOracle (clearTimeoutW (clearTimeoutW
        ⟨⟨[h, h'], [], [], 0, [], [], [], []⟩, b, [h, h'], []⟩ (some h)) (some h)) =
      .ok ⟨⟨[], [], [], 0, [], [], [], []⟩, b, [h'], []⟩ := by
  refine ⟨?_, ?_, ?_⟩
  · simp only [clearTimeoutW]
    rw [jsIndexOf_not_mem _ _ hmemT, spliceRemoveOne_neg_one]
  · simp only [clearIntervalW]
    rw [jsIndexOf_not_mem _ _ hmemI, spliceRemoveOne_neg_one]
  · have hne' : h' ≠ h := Ne.symm hne
    have e1 : clearTimeoutW ⟨⟨[h, h'], [], [], 0, [], [], [], []⟩, b, [h, h'], []⟩ (some h) =
        ⟨⟨[h'], [], [], 0, [], [], [], []⟩, b, [h'], []⟩ := by
      norm_num [clearTimeoutW, jsIndexOf, spliceRemoveOne, List.findIdx?_cons]
    have e2 : clearTimeoutW ⟨⟨[h'], [], [], 0, [], [], [], []⟩, b, [h'], []⟩ (some h) =
        ⟨⟨[], [], [], 0, [], [], [], []⟩, b, [h'], []⟩ := by
      norm_num [clearTimeoutW, jsIndexOf, spliceRemoveOne, List.findIdx?_cons,
        List.erase_cons, hne']
    rw [e1, e2]
    rfl

/-- Witness for C10: a concrete world with tracked handles `[21, 22]`,
clearing the untracked handle `99`. -/
theorem c10_witness :
    (clearTimeoutW ⟨⟨[21, 22], [31], [], 0, [], [], [], []⟩, sampleBroker,
        [21, 22], [31]⟩ (some 99)).mod.timeouts = [21] ∧
    (clearIntervalW ⟨⟨[21, 22], [31], [], 0, [], [], [], []⟩, sampleBroker,
        [21, 22], [31]⟩ (some 99)).mod.intervals = [] ∧
    destroyW noFailOracle (clearTimeoutW (clearTimeoutW
        ⟨⟨[1, 2], [], [], 0, [], [], [], []⟩, sampleBroker, [1, 2], []⟩ (some 1)) (some 1)) =
      .ok ⟨⟨[], [], [], 0, [], [], [], []⟩, sampleBroker, [2], []⟩ :=
  c10_clear_untracked_handle
    ⟨⟨[21, 22], [31], [], 0, [], [], [], []⟩, sampleBroker, [21, 22], [31]⟩
    99 1 2 sampleBroker (by decide) (by decide) (by decide)

/-- Witness for the amended C5 at the spec's own example:
`callService('light', 'turn_on', null, { brightness: 100 })` forwards
`{ brightness: 100 }` with no `entity_id` key. -/
theorem c5_amended_witness :
    mapGet (callServiceOptions none (some [("brightness", JVal.num 100)])) "brightness" =
      some (JVal.num 100) ∧
    mapGet (callServiceOptions none (some [("brightness", JVal.num 100)])) "entity_id" =
      none :=
  ⟨(c5_amended_options none [("brightness", JVal.num 100)] none "x" "brightness"
      (JVal.num 100) (by decide) (by decide) rfl rfl (by decide) rfl).1,
   (c5_amended_options none [("brightness", JVal.num 100)]
      (some [("brightness", JVal.num 100)]) "x" "brightness"
      (JVal.num 100) (by decide) (by decide) rfl rfl (by decide) rfl).2.1⟩

end HassSidecar
